import Mathlib

/-!
Verification development for `analyze.py` of the satoshis-coins repository.

The Python source is shallowly embedded below:

* `CircularBuffer` / `CircularBuffer.insert` / `CircularBuffer.tail` embed the
  class of the same name (lines 10-31 of `analyze.py`).
* `FetcherState`, `fetch_blocks`, `iter_init`, `next_block` embed the
  `BlockFetcher` iterator (lines 34-80).  The RPC connection collaborator is
  modelled by `RpcConn`: `getblockhash_batch start count` is the response list
  of the phase-1 batched call for heights `[start, start+count)`, and
  `getblock_batch hashes verbose` is the response list of the phase-2 batched
  call (`verbose` mirrors the verbosity-2 argument used when `scan_coinbase`
  is set).  Block hashes are modelled as opaque numeric identifiers.
* `estimate_hash_rate` embeds the function of the same name (lines 83-89);
  Python floats are modelled as exact rationals.
* `block_reward` embeds the function of the same name (lines 92-100); Python
  exceptions are modelled with `Except PyErr`.  In the `not scan_coinbase`
  branch the source evaluates `block(['height'])`, which calls a `dict`
  value and therefore raises `TypeError` in Python; the embedding returns
  that error.
* `main_step` / `run_main` / `main_output` embed the per-block loop body of
  `main` (lines 121-141) applied to the sequence of blocks the iterator
  delivers, together with the final `json.dump` + trailing-newline write
  (numeric rendering inside the JSON encoder is abstracted by `toString`).
-/

/-- Block hashes are opaque identifiers returned by `getblockhash`. -/
abbrev BlockHash := Nat

/-- One entry of a transaction's `vin` list: `hasCoinbase` models whether the
`'coinbase'` key is present in the vin object (the test
`'coinbase' in vin` of `analyze.py` line 98). -/
structure TxIn where
  hasCoinbase : Bool
deriving Repr, DecidableEq

/-- One entry of a transaction's `vout` list (only the `'value'` field is
read by the source). -/
structure TxOut where
  value : Rat
deriving Repr, DecidableEq

/-- A transaction: the `'vin'` and `'vout'` lists read by `block_reward`. -/
structure Tx where
  vin : List TxIn
  vout : List TxOut
deriving Repr, DecidableEq

/-- A block record with the fields `analyze.py` reads: `'height'`, `'time'`
(unix seconds), `'difficulty'`, `'tx'`. -/
structure Block where
  height : Int
  time : Int
  difficulty : Rat
  tx : List Tx
deriving Repr, DecidableEq

instance : Inhabited Block := ⟨⟨0, 0, 0, []⟩⟩

/-- The `'coinbase' in vin for vin in tx['vin']` test of line 98. -/
def tx_is_coinbase (t : Tx) : Bool :=
  t.vin.any (fun v => v.hasCoinbase)

/-- Python exceptions raised by the embedded code. -/
inductive PyErr where
  | typeError
  | assertionError
  | indexError
deriving Repr, DecidableEq

deriving instance DecidableEq for Except

/-- Embedding of `estimate_hash_rate` (lines 83-89): floats as rationals,
`1 << 48` as a machine shift. -/
def estimate_hash_rate (difficulty seconds : Rat) : Rat :=
  let expected_hashes := difficulty * ((1 <<< 48 : Nat) : Rat) / (0xffff : Rat)
  expected_hashes / seconds

/-- Written from the spec's words, for comparison with the source function:
`estimate_hash_rate(d, t) = d * 2^48 / 0xffff / t`. -/
def spec_hash_rate (d t : Rat) : Rat :=
  d * 2 ^ 48 / (0xffff : Rat) / t

/-- Embedding of `block_reward` (lines 92-100).  The `not scan_coinbase`
branch evaluates `block(['height'])`: `block` is a `dict`, and calling a
`dict` raises `TypeError`, so the branch errors before computing the
`50 * 0.5**epoch` subsidy.  The scanning branch returns the `vout` sum of the
first transaction whose `vin` contains a `'coinbase'` key, and the final
`assert False` (no coinbase transaction found) is an `AssertionError`. -/
def block_reward (block : Block) (scan_coinbase : Bool) : Except PyErr Rat :=
  if !scan_coinbase then
    Except.error PyErr.typeError
  else
    match block.tx.find? tx_is_coinbase with
    | some t => Except.ok ((t.vout.map (fun o => o.value)).sum)
    | none => Except.error PyErr.assertionError

/-- Mutable state of a `BlockFetcher`: the height cursor `self.height`, the
pending queue `self.blocks`, and `self.cutoff` (unix seconds; `0` before
`__iter__` runs, which is the only phase where the source leaves it `None`
and never reads it). -/
structure FetcherState where
  height : Nat
  blocks : List Block
  cutoff : Int
deriving Repr, DecidableEq

/-- The RPC-connection collaborator used by `BlockFetcher`:
`getblockhash_batch start count` is the response list of the phase-1 batched
`getblockhash` call for heights `[start, start+count)`, and
`getblock_batch hashes verbose` is the response list of the phase-2 batched
`getblock` call on those hashes (`verbose` is the `scan_coinbase`
verbosity-2 flag). -/
structure RpcConn where
  getblockhash_batch : Nat → Nat → List BlockHash
  getblock_batch : List BlockHash → Bool → List Block

/-- A connection that answers each batched request in request order with one
result per request: the hash for height `n` is `hashAt n`, and the block
fetched for a hash is `blockOf verbose hash`.  This is the well-behaved
source assumed by the spec's delivery-order property. -/
def RpcConn.pointwise (hashAt : Nat → BlockHash) (blockOf : Bool → BlockHash → Block) :
    RpcConn where
  getblockhash_batch := fun start count => (List.range count).map (fun i => hashAt (start + i))
  getblock_batch := fun hashes verbose => hashes.map (blockOf verbose)

/-- Embedding of `BlockFetcher._fetch_blocks` (lines 55-65): phase 1 requests
hashes for `[height, height + batch_size)`, the cursor advances by
`batch_size`, then phase 2 requests the block data for exactly the returned
hashes.  The source performs no length check on either response. -/
def fetch_blocks (conn : RpcConn) (scan_coinbase : Bool) (batch_size : Nat)
    (s : FetcherState) : FetcherState :=
  let block_hashes := conn.getblockhash_batch s.height batch_size
  let height' := s.height + batch_size
  { s with height := height', blocks := conn.getblock_batch block_hashes scan_coinbase }

/-- Embedding of `BlockFetcher.__iter__` (lines 67-71): performs the first
fetch and sets `self.cutoff` to the first fetched block's time plus
`cutoff_delta` (seconds).  `self.blocks[0]` raises `IndexError` when the
first fetch returns no blocks, modelled by `none`. -/
def iter_init (conn : RpcConn) (scan_coinbase : Bool) (batch_size : Nat)
    (cutoff_delta : Int) : Option FetcherState :=
  let s := fetch_blocks conn scan_coinbase batch_size ⟨0, [], 0⟩
  match s.blocks with
  | [] => none
  | b :: _ => some { s with cutoff := b.time + cutoff_delta }

/-- Outcome of one `BlockFetcher.__next__` call. -/
inductive NextResult where
  | block (b : Block)
  | stopIteration
  | indexError
deriving Repr, DecidableEq

/-- The pop-and-check tail of `BlockFetcher.__next__` (lines 77-80):
`self.blocks.pop(0)` (an `IndexError` on an empty queue), then
`StopIteration` when the popped block's time has reached the cutoff,
otherwise the block is returned. -/
def pop_front (s : FetcherState) : NextResult × FetcherState :=
  match s.blocks with
  | [] => (NextResult.indexError, s)
  | b :: rest =>
      if s.cutoff ≤ b.time then (NextResult.stopIteration, { s with blocks := rest })
      else (NextResult.block b, { s with blocks := rest })

/-- Embedding of `BlockFetcher.__next__` (lines 73-80): fetch when the
pending queue is empty (`if not self.blocks`), then pop the front block and
apply the cutoff check. -/
def next_block (conn : RpcConn) (scan_coinbase : Bool) (batch_size : Nat)
    (s : FetcherState) : NextResult × FetcherState :=
  pop_front (if s.blocks.isEmpty then fetch_blocks conn scan_coinbase batch_size s else s)

/-- State of the fetcher after `n` further `__next__` calls from `s₀`. -/
def state_at (conn : RpcConn) (scan_coinbase : Bool) (batch_size : Nat)
    (s₀ : FetcherState) : Nat → FetcherState
  | 0 => s₀
  | n + 1 => (next_block conn scan_coinbase batch_size
      (state_at conn scan_coinbase batch_size s₀ n)).2

/-- Outcome of the `(n+1)`-th `__next__` call from `s₀`. -/
def output_at (conn : RpcConn) (scan_coinbase : Bool) (batch_size : Nat)
    (s₀ : FetcherState) (n : Nat) : NextResult :=
  (next_block conn scan_coinbase batch_size (state_at conn scan_coinbase batch_size s₀ n)).1

/-- The block a pointwise source produces for the request at height `n`. -/
def src_block (hashAt : Nat → BlockHash) (blockOf : Bool → BlockHash → Block)
    (scan_coinbase : Bool) (n : Nat) : Block :=
  blockOf scan_coinbase (hashAt n)

/-- Invariant of the fetcher after `n` blocks have been popped: the cursor
counts the heights already requested, and the pending queue holds exactly
the source's blocks for the consecutive heights `[n, height)`. -/
def fetcher_inv (src : Nat → Block) (n : Nat) (s : FetcherState) : Prop :=
  s.height = n + s.blocks.length ∧
    s.blocks = (List.range' n s.blocks.length).map src

/-- A concrete source whose phase-1 batch for heights `[0, 2)` returns only
one hash instead of the two requested, while later batches answer in full;
phase 2 returns one block per hash, with the height and time of the block
equal to its hash. -/
def c5_conn : RpcConn where
  getblockhash_batch := fun start count => if start = 0 then [0] else List.range' start count
  getblock_batch := fun hashes _ => hashes.map (fun h => ⟨(h : Int), (h : Int), 1, []⟩)

/-- An RPC connection whose phase-2 batched `getblock` call may fail
(network/auth/protocol failure propagating as an exception). -/
structure RpcConnE where
  getblockhash_batch : Nat → Nat → List BlockHash
  getblock_batch : List BlockHash → Bool → Except Unit (List Block)

/-- Embedding of `BlockFetcher._fetch_blocks` (lines 55-65) against a
fallible phase-2 collaborator, keeping the source's statement order: the
phase-1 hash lookup is issued first, `self.height += self.batch_size` runs
next, and only then is the phase-2 block-data call issued.  When phase 2
raises, the exception propagates (`some` failure) but the object state —
with the already-advanced cursor — persists, and `self.blocks` keeps its
old value since the assignment on line 65 never executes. -/
def fetch_blocks_phased (conn : RpcConnE) (scan_coinbase : Bool) (batch_size : Nat)
    (s : FetcherState) : FetcherState × Option Unit :=
  let block_hashes := conn.getblockhash_batch s.height batch_size
  let s₁ : FetcherState := { s with height := s.height + batch_size }
  match conn.getblock_batch block_hashes scan_coinbase with
  | Except.ok bs => ({ s₁ with blocks := bs }, none)
  | Except.error e => (s₁, some e)

/-- Embedding of the `CircularBuffer` class (lines 10-31).  `insert` computes
`full` before mutating, overwrites `items[position]` and advances `position`
modulo `capacity` when full, appends otherwise, and returns the `full` flag
(Lean's `List.set` is a no-op out of range where Python would raise
`IndexError`; `insert` is only ever applied with `position < capacity ≤
items.length` in the full case, where the two agree). -/
structure CircularBuffer (α : Type) where
  capacity : Nat
  position : Nat
  items : List α
deriving Repr, DecidableEq

/-- Embedding of `CircularBuffer.insert` (lines 16-27). -/
def CircularBuffer.insert {α : Type} (buf : CircularBuffer α) (item : α) :
    Bool × CircularBuffer α :=
  let full := buf.items.length == buf.capacity
  if full then
    (true, { buf with items := buf.items.set buf.position item,
                      position := (buf.position + 1) % buf.capacity })
  else
    (false, { buf with items := buf.items ++ [item] })

/-- Embedding of `CircularBuffer.tail` (lines 29-31): `items[position]`,
`none` modelling the `IndexError` on an out-of-range position. -/
def CircularBuffer.tail {α : Type} (buf : CircularBuffer α) : Option α :=
  buf.items[buf.position]?

/-- JSON values appearing in the emitted records. -/
inductive JVal where
  | null
  | int (n : Int)
  | rat (q : Rat)
deriving Repr, DecidableEq

/-- One emitted record: a Python dict as an insertion-ordered key/value
list (Python dicts preserve insertion order, and `json.dump` serializes
keys in that order). -/
abbrev JRec := List (String × JVal)

/-- A possibly-`None` float field of a record. -/
def optJ : Option Rat → JVal
  | none => JVal.null
  | some q => JVal.rat q

/-- State of `main`'s loop: the `times` circular buffer and the `info`
record list. -/
structure MainState where
  times : CircularBuffer Int
  info : List JRec
deriving Repr, DecidableEq

/-- Embedding of one iteration of `main`'s `for block in fetcher` loop body
(lines 121-137): insert the timestamp into the `times` buffer; when the
insert reports the buffer full, read `times.tail()` (an `IndexError` when
out of range), compute `time_per_block = elapsed / times.capacity` and the
hash-rate estimate; call `block_reward`; append the six-key record. -/
def main_step (scan_coinbase : Bool) (s : MainState) (block : Block) :
    Except PyErr MainState := do
  let timestamp := block.time
  let difficulty := block.difficulty
  let (full, times') := s.times.insert timestamp
  let pair : Option (Rat × Rat) ←
    if full then
      match times'.tail with
      | none => Except.error PyErr.indexError
      | some t0 =>
          let elapsed : Rat := ((timestamp - t0 : Int) : Rat)
          let time_per_block := elapsed / (times'.capacity : Rat)
          Except.ok (some (time_per_block, estimate_hash_rate difficulty time_per_block))
    else Except.ok none
  let reward ← block_reward block scan_coinbase
  Except.ok
    { times := times',
      info := s.info ++ [[("height", JVal.int block.height),
        ("time", JVal.int timestamp),
        ("difficulty", JVal.rat difficulty),
        ("interval", optJ (pair.map Prod.fst)),
        ("reward", JVal.rat reward),
        ("hashrate", optJ (pair.map Prod.snd))]] }

/-- Embedding of `main`'s loop (lines 116-137) applied to the sequence of
blocks the iterator delivers: `times = CircularBuffer(2016)`, `info = []`,
then one `main_step` per block; the result is the final `info` list. -/
def run_main (scan_coinbase : Bool) (blocks : List Block) : Except PyErr (List JRec) := do
  let final ← blocks.foldlM (main_step scan_coinbase) ⟨⟨2016, 0, []⟩, []⟩
  Except.ok final.info

/-- Minimal JSON rendering of a value (numeric rendering abstracted by
`toString`). -/
def JVal.encode : JVal → String
  | JVal.null => "null"
  | JVal.int n => toString n
  | JVal.rat q => toString q

/-- JSON rendering of one record, keys in insertion order. -/
def encode_rec (r : JRec) : String :=
  "\x7b" ++ String.intercalate ", " (r.map (fun kv => "\"" ++ kv.1 ++ "\": " ++ kv.2.encode))
    ++ "\x7d"

/-- JSON rendering of the `info` array, as `json.dump(info, outfile)`. -/
def encode_info (recs : List JRec) : String :=
  "[" ++ String.intercalate ", " (recs.map encode_rec) ++ "]"

/-- Embedding of lines 139-141: serialize `info` and write a trailing
newline. -/
def main_output (scan_coinbase : Bool) (blocks : List Block) : Except PyErr String := do
  let recs ← run_main scan_coinbase blocks
  Except.ok (encode_info recs ++ "\n")

/-- Index of the last insertion that wrote into slot `j` of a capacity-`c`
circular buffer, after `k` total insertions of items `0, …, k-1`: the
largest `m < k` with `m % c = j`. -/
def lastWrite (c k j : Nat) : Nat :=
  k - 1 - ((k - 1 - j) % c)

/-- Closed form of a `CircularBuffer(c)` after inserting
`t 0, t 1, …, t (k-1)` in order: the first `c` insertions append with
`position` still `0`; afterwards slot `j` holds the item of the last
insertion that wrote it, and `position = k % c` points at the oldest
retained item. -/
def bufModel (c : Nat) (t : Nat → Int) (k : Nat) : CircularBuffer Int :=
  if k ≤ c then ⟨c, 0, (List.range k).map t⟩
  else ⟨c, k % c, (List.range c).map (fun j => t (lastWrite c k j))⟩

/-- The interval value `main` computes for the block at index `i ≥ 2016`:
`(t_i - t_(i-2015)) / 2016` — the elapsed time to the oldest timestamp
still retained in the rolling buffer, divided by the buffer capacity. -/
def expInterval (blocks : List Block) (i : Nat) : Rat :=
  (((blocks.getD i default).time - (blocks.getD (i + 1 - 2016) default).time : Int) : Rat)
    / 2016

/-- Closed form of the record `main` appends for the block at index `i` of
the consumed stream (when reward scanning is on and the block has a
coinbase transaction). -/
def expectedRec (blocks : List Block) (i : Nat) : JRec :=
  [("height", JVal.int (blocks.getD i default).height),
   ("time", JVal.int (blocks.getD i default).time),
   ("difficulty", JVal.rat (blocks.getD i default).difficulty),
   ("interval", if i < 2016 then JVal.null else JVal.rat (expInterval blocks i)),
   ("reward", JVal.rat ((block_reward (blocks.getD i default) true).toOption.getD 0)),
   ("hashrate", if i < 2016 then JVal.null
      else JVal.rat (estimate_hash_rate (blocks.getD i default).difficulty
        (expInterval blocks i)))]

lemma fetch_blocks_pointwise (hashAt : Nat → BlockHash) (blockOf : Bool → BlockHash → Block)
    (scan_coinbase : Bool) (batch_size : Nat) (s : FetcherState) :
    fetch_blocks (RpcConn.pointwise hashAt blockOf) scan_coinbase batch_size s =
      { s with height := s.height + batch_size,
               blocks := (List.range' s.height batch_size).map
                 (src_block hashAt blockOf scan_coinbase) } := by
  simp [fetch_blocks, RpcConn.pointwise, src_block, List.range'_eq_map_range,
    List.map_map, Function.comp]

lemma pop_front_cons (s : FetcherState) (b : Block) (bs : List Block)
    (hbl : s.blocks = b :: bs) :
    pop_front s =
      (if s.cutoff ≤ b.time then NextResult.stopIteration else NextResult.block b,
        { s with blocks := bs }) := by
  cases s with
  | mk height blocks cutoff =>
      simp only [] at hbl
      subst hbl
      simp only [pop_front]
      by_cases hc : cutoff ≤ b.time <;> simp [hc]

lemma next_block_of_cons (conn : RpcConn) (scan_coinbase : Bool) (batch_size : Nat)
    (s : FetcherState) (b : Block) (bs : List Block) (hbl : s.blocks = b :: bs) :
    next_block conn scan_coinbase batch_size s =
      (if s.cutoff ≤ b.time then NextResult.stopIteration else NextResult.block b,
        { s with blocks := bs }) := by
  unfold next_block
  rw [if_neg (by simp [hbl])]
  exact pop_front_cons s b bs hbl

lemma next_block_of_empty (conn : RpcConn) (scan_coinbase : Bool) (batch_size : Nat)
    (s : FetcherState) (hbl : s.blocks = []) :
    next_block conn scan_coinbase batch_size s =
      pop_front (fetch_blocks conn scan_coinbase batch_size s) := by
  unfold next_block
  rw [if_pos (by simp [hbl])]

lemma next_block_inv (hashAt : Nat → BlockHash) (blockOf : Bool → BlockHash → Block)
    (scan_coinbase : Bool) (batch_size : Nat) (hB : 1 ≤ batch_size) (n : Nat)
    (s : FetcherState)
    (h : fetcher_inv (src_block hashAt blockOf scan_coinbase) n s) :
    fetcher_inv (src_block hashAt blockOf scan_coinbase) (n + 1)
        (next_block (RpcConn.pointwise hashAt blockOf) scan_coinbase batch_size s).2 ∧
      ((next_block (RpcConn.pointwise hashAt blockOf) scan_coinbase batch_size s).1 =
          NextResult.block (src_block hashAt blockOf scan_coinbase n) ∨
        (next_block (RpcConn.pointwise hashAt blockOf) scan_coinbase batch_size s).1 =
          NextResult.stopIteration) := by
  obtain ⟨h1, h2⟩ := h
  cases hbl : s.blocks with
  | nil =>
      have hh : s.height = n := by rw [hbl] at h1; simpa using h1
      obtain ⟨B', rfl⟩ : ∃ B', batch_size = B' + 1 := ⟨batch_size - 1, by omega⟩
      rw [next_block_of_empty _ _ _ _ hbl, fetch_blocks_pointwise, hh, List.range'_succ,
        List.map_cons]
      rw [pop_front_cons _ (src_block hashAt blockOf scan_coinbase n)
        ((List.range' (n + 1) B').map (src_block hashAt blockOf scan_coinbase)) rfl]
      refine ⟨⟨?_, ?_⟩, ?_⟩
      · simp only []
        simp [Nat.add_assoc, Nat.add_comm 1 B']
      · simp
      · by_cases hc : s.cutoff ≤ (src_block hashAt blockOf scan_coinbase n).time <;>
          simp [hc]
  | cons b bs =>
      rw [hbl, List.length_cons, List.range'_succ, List.map_cons] at h2
      simp only [List.cons.injEq] at h2
      obtain ⟨rfl, hbs⟩ := h2
      rw [next_block_of_cons _ _ _ _ _ _ hbl]
      refine ⟨⟨?_, ?_⟩, ?_⟩
      · simp only []
        rw [hbl] at h1
        simp at h1
        simpa using by omega
      · simpa using hbs
      · by_cases hc : s.cutoff ≤ (src_block hashAt blockOf scan_coinbase n).time <;>
          simp [hc]

lemma state_at_inv (hashAt : Nat → BlockHash) (blockOf : Bool → BlockHash → Block)
    (scan_coinbase : Bool) (batch_size : Nat) (hB : 1 ≤ batch_size)
    (s₀ : FetcherState)
    (h0 : fetcher_inv (src_block hashAt blockOf scan_coinbase) 0 s₀) (n : Nat) :
    fetcher_inv (src_block hashAt blockOf scan_coinbase) n
      (state_at (RpcConn.pointwise hashAt blockOf) scan_coinbase batch_size s₀ n) := by
  induction n with
  | zero => exact h0
  | succ k ih =>
      exact (next_block_inv hashAt blockOf scan_coinbase batch_size hB k _ ih).1

lemma iter_init_inv (hashAt : Nat → BlockHash) (blockOf : Bool → BlockHash → Block)
    (scan_coinbase : Bool) (batch_size : Nat) (cutoff_delta : Int) (s₀ : FetcherState)
    (h0 : iter_init (RpcConn.pointwise hashAt blockOf) scan_coinbase batch_size cutoff_delta =
      some s₀) :
    fetcher_inv (src_block hashAt blockOf scan_coinbase) 0 s₀ := by
  simp only [iter_init, fetch_blocks_pointwise] at h0
  split at h0
  · exact absurd h0 (by simp)
  · rename_i b l heq
    simp only [Option.some.injEq] at h0
    subst h0
    have hlen : (b :: l).length = batch_size := by
      rw [← heq]; simp
    constructor
    · simp only []
      rw [heq]
      simpa using hlen.symm
    · simp only []
      rw [heq, hlen]
      exact heq.symm

/-- C1: for every `batch_size ≥ 1`, with a source that answers each batched
request in request order with one result per request (`RpcConn.pointwise`),
the `(n+1)`-th `__next__` call either returns exactly the block the source
produced for height `n` — so delivered heights are `0, 1, 2, …`, strictly
increasing and gap-free — or signals the day-cutoff `StopIteration`. -/
theorem C1_ordered_delivery (hashAt : Nat → BlockHash) (blockOf : Bool → BlockHash → Block)
    (scan_coinbase : Bool) (batch_size : Nat) (cutoff_delta : Int) (n : Nat)
    (s₀ : FetcherState) (hB : 1 ≤ batch_size)
    (h0 : iter_init (RpcConn.pointwise hashAt blockOf) scan_coinbase batch_size cutoff_delta =
      some s₀) :
    output_at (RpcConn.pointwise hashAt blockOf) scan_coinbase batch_size s₀ n =
        NextResult.block (src_block hashAt blockOf scan_coinbase n) ∨
      output_at (RpcConn.pointwise hashAt blockOf) scan_coinbase batch_size s₀ n =
        NextResult.stopIteration := by
  have hinv := state_at_inv hashAt blockOf scan_coinbase batch_size hB s₀
    (iter_init_inv hashAt blockOf scan_coinbase batch_size cutoff_delta s₀ h0) n
  exact (next_block_inv hashAt blockOf scan_coinbase batch_size hB n _ hinv).2

/-- Witness for C1 at a concrete source, `batch_size = 1`, call `0`. -/
theorem C1_witness :
    1 ≤ 1 ∧
      iter_init (RpcConn.pointwise (fun h => h) (fun _ h => ⟨(h : Int), 0, 1, []⟩)) false 1 5 =
        some ⟨1, [⟨0, 0, 1, []⟩], 5⟩ ∧
      (output_at (RpcConn.pointwise (fun h => h) (fun _ h => ⟨(h : Int), 0, 1, []⟩)) false 1
          ⟨1, [⟨0, 0, 1, []⟩], 5⟩ 0 = NextResult.block ⟨0, 0, 1, []⟩ ∨
        output_at (RpcConn.pointwise (fun h => h) (fun _ h => ⟨(h : Int), 0, 1, []⟩)) false 1
          ⟨1, [⟨0, 0, 1, []⟩], 5⟩ 0 = NextResult.stopIteration) :=
  ⟨Nat.le_refl 1, by decide,
    C1_ordered_delivery (fun h => h) (fun _ h => ⟨(h : Int), 0, 1, []⟩) false 1 5 0
      ⟨1, [⟨0, 0, 1, []⟩], 5⟩ (by decide) (by decide)⟩

/-- C2: `next_block` triggers `fetch_blocks` exactly when the pending queue
is empty (the `if not self.blocks` guard), and after `n` delivered calls the
queue is empty if and only if the cursor equals `n` — i.e. a fetch can only
happen once every previously requested height has already been popped and
delivered, so the queue populated by one fetch is fully drained before the
next fetch is triggered and at most one batch request is ever outstanding. -/
theorem C2_drained_before_fetch (hashAt : Nat → BlockHash)
    (blockOf : Bool → BlockHash → Block) (scan_coinbase : Bool) (batch_size : Nat)
    (cutoff_delta : Int) (n : Nat) (s₀ : FetcherState) (hB : 1 ≤ batch_size)
    (h0 : iter_init (RpcConn.pointwise hashAt blockOf) scan_coinbase batch_size cutoff_delta =
      some s₀) :
    (state_at (RpcConn.pointwise hashAt blockOf) scan_coinbase batch_size s₀ n).blocks = [] ↔
      (state_at (RpcConn.pointwise hashAt blockOf) scan_coinbase batch_size s₀ n).height = n := by
  have hinv := state_at_inv hashAt blockOf scan_coinbase batch_size hB s₀
    (iter_init_inv hashAt blockOf scan_coinbase batch_size cutoff_delta s₀ h0) n
  obtain ⟨h1, h2⟩ := hinv
  constructor
  · intro h
    rw [h] at h1
    simpa using h1
  · intro h
    rw [h] at h1
    have : (state_at (RpcConn.pointwise hashAt blockOf) scan_coinbase batch_size s₀ n).blocks.length
        = 0 := by omega
    exact List.length_eq_zero.mp this

/-- Witness for C2 at a concrete source, `batch_size = 1`, after one call. -/
theorem C2_witness :
    1 ≤ 1 ∧
      iter_init (RpcConn.pointwise (fun h => h) (fun _ h => ⟨(h : Int), 0, 1, []⟩)) false 1 5 =
        some ⟨1, [⟨0, 0, 1, []⟩], 5⟩ ∧
      ((state_at (RpcConn.pointwise (fun h => h) (fun _ h => ⟨(h : Int), 0, 1, []⟩)) false 1
          ⟨1, [⟨0, 0, 1, []⟩], 5⟩ 1).blocks = [] ↔
        (state_at (RpcConn.pointwise (fun h => h) (fun _ h => ⟨(h : Int), 0, 1, []⟩)) false 1
          ⟨1, [⟨0, 0, 1, []⟩], 5⟩ 1).height = 1) :=
  ⟨Nat.le_refl 1, by decide,
    C2_drained_before_fetch (fun h => h) (fun _ h => ⟨(h : Int), 0, 1, []⟩) false 1 5 1
      ⟨1, [⟨0, 0, 1, []⟩], 5⟩ (by decide) (by decide)⟩

/-- C4 counterexample: the stream does terminate on its own.  With a
well-behaved source (every fetch succeeds), `cutoff_delta = 0` and the
genesis block's time `0`, the state reached by the successful initial fetch
answers the very first `__next__` call with `StopIteration` — an
end-of-stream signal, not a block and not a fetch error — refuting the
claim that the stream never signals end-of-stream. -/
theorem C4_counterexample :
    iter_init (RpcConn.pointwise (fun h => h) (fun _ h => ⟨(h : Int), 0, 1, []⟩)) false 1 0 =
        some ⟨1, [⟨0, 0, 1, []⟩], 0⟩ ∧
      (next_block (RpcConn.pointwise (fun h => h) (fun _ h => ⟨(h : Int), 0, 1, []⟩)) false 1
          ⟨1, [⟨0, 0, 1, []⟩], 0⟩).1 = NextResult.stopIteration := by
  constructor
  · decide
  · decide

/-- C4 as amended: the stream does self-terminate.  With a well-behaved
source and `batch_size ≥ 1`, every `__next__` call pops a block `b` (never
an `IndexError`): it returns `b` when `b.time` is below the cutoff (the
first block's time plus `cutoff_delta`), and signals end-of-stream
(`StopIteration`) exactly when `b.time` has reached the cutoff. -/
theorem C4_cutoff_termination (hashAt : Nat → BlockHash)
    (blockOf : Bool → BlockHash → Block) (scan_coinbase : Bool) (batch_size : Nat)
    (hB : 1 ≤ batch_size) (s : FetcherState) :
    ∃ b s', next_block (RpcConn.pointwise hashAt blockOf) scan_coinbase batch_size s =
      ((if s.cutoff ≤ b.time then NextResult.stopIteration else NextResult.block b), s') := by
  cases hbl : s.blocks with
  | nil =>
      obtain ⟨B', rfl⟩ : ∃ B', batch_size = B' + 1 := ⟨batch_size - 1, by omega⟩
      rw [next_block_of_empty _ _ _ _ hbl, fetch_blocks_pointwise, List.range'_succ,
        List.map_cons]
      rw [pop_front_cons _ (src_block hashAt blockOf scan_coinbase s.height)
        ((List.range' (s.height + 1) B').map (src_block hashAt blockOf scan_coinbase)) rfl]
      exact ⟨src_block hashAt blockOf scan_coinbase s.height, _, rfl⟩
  | cons b bs =>
      rw [next_block_of_cons _ _ _ _ _ _ hbl]
      exact ⟨b, _, rfl⟩

/-- Witness for C4's amended theorem at a concrete source and state. -/
theorem C4_witness :
    1 ≤ 1 ∧
      ∃ b s', next_block (RpcConn.pointwise (fun h => h) (fun _ h => ⟨(h : Int), 0, 1, []⟩))
          false 1 ⟨5, [], 7⟩ =
        ((if (7 : Int) ≤ b.time then NextResult.stopIteration else NextResult.block b), s') :=
  ⟨Nat.le_refl 1,
    C4_cutoff_termination (fun h => h) (fun _ h => ⟨(h : Int), 0, 1, []⟩) false 1
      (by decide) ⟨5, [], 7⟩⟩

/-- C5 counterexample: a phase-1 batch returning 1 hash when 2 were
requested does NOT fail — neither the source nor this embedding has any
length check or `FetchError` (no such class exists in `analyze.py`).  The
fetch produces a normal state whose queue holds a single block, the first
call delivers the block for height 0, and the second call delivers the
block for height 2: a silently shorter batch and a gap at height 1, exactly
what the claim says cannot happen. -/
theorem C5_counterexample :
    fetch_blocks c5_conn false 2 ⟨0, [], 0⟩ = ⟨2, [⟨0, 0, 1, []⟩], 0⟩ ∧
      output_at c5_conn false 2 ⟨2, [⟨0, 0, 1, []⟩], 1000000⟩ 0 =
        NextResult.block ⟨0, 0, 1, []⟩ ∧
      output_at c5_conn false 2 ⟨2, [⟨0, 0, 1, []⟩], 1000000⟩ 1 =
        NextResult.block ⟨2, 2, 1, []⟩ := by
  refine ⟨by decide, by decide, by decide⟩

/-- C5 as amended: a batched call returning fewer hashes than requested is
accepted silently — `_fetch_blocks` checks no lengths and the code defines
no `FetchError`.  With `batch_size = 2` and a first batch returning 1 hash,
`__iter__` succeeds, the cursor still advances by the full `batch_size`
(to 2 after the short fetch), and the stream delivers the blocks for
heights 0, 2, 3, 4, …: height 1 is never requested again, leaving a
permanent gap with no error raised. -/
theorem C5_silent_gap :
    iter_init c5_conn false 2 1000000 = some ⟨2, [⟨0, 0, 1, []⟩], 1000000⟩ ∧
      (state_at c5_conn false 2 ⟨2, [⟨0, 0, 1, []⟩], 1000000⟩ 1).height = 2 ∧
      (state_at c5_conn false 2 ⟨2, [⟨0, 0, 1, []⟩], 1000000⟩ 2).height = 4 ∧
      output_at c5_conn false 2 ⟨2, [⟨0, 0, 1, []⟩], 1000000⟩ 0 =
        NextResult.block ⟨0, 0, 1, []⟩ ∧
      output_at c5_conn false 2 ⟨2, [⟨0, 0, 1, []⟩], 1000000⟩ 1 =
        NextResult.block ⟨2, 2, 1, []⟩ ∧
      output_at c5_conn false 2 ⟨2, [⟨0, 0, 1, []⟩], 1000000⟩ 2 =
        NextResult.block ⟨3, 3, 1, []⟩ ∧
      output_at c5_conn false 2 ⟨2, [⟨0, 0, 1, []⟩], 1000000⟩ 3 =
        NextResult.block ⟨4, 4, 1, []⟩ := by
  refine ⟨by decide, by decide, by decide, by decide, by decide, by decide, by decide⟩

lemma fetch_blocks_phased_height (conn : RpcConnE) (scan_coinbase : Bool)
    (batch_size : Nat) (s : FetcherState) :
    (fetch_blocks_phased conn scan_coinbase batch_size s).1.height =
      s.height + batch_size := by
  unfold fetch_blocks_phased
  cases h : conn.getblock_batch (conn.getblockhash_batch s.height batch_size)
    scan_coinbase <;> simp [h]

/-- C10: the cursor is advanced by exactly `batch_size` between phase 1 and
phase 2 of every fetch, whatever the phase-2 outcome — in particular even
when phase 2 fails — and iterating `k` fetches from any state advances the
cursor by exactly `k * batch_size`, so between fetches the cursor always
equals the total number of heights already requested. -/
theorem C10_cursor_advance (conn : RpcConnE) (scan_coinbase : Bool) (batch_size : Nat)
    (s : FetcherState) :
    (fetch_blocks_phased conn scan_coinbase batch_size s).1.height = s.height + batch_size ∧
      ∀ k : Nat,
        ((fun t => (fetch_blocks_phased conn scan_coinbase batch_size t).1)^[k] s).height =
          s.height + k * batch_size := by
  constructor
  · exact fetch_blocks_phased_height conn scan_coinbase batch_size s
  · intro k
    induction k generalizing s with
    | zero => simp
    | succ m ih =>
        rw [Function.iterate_succ_apply, ih, fetch_blocks_phased_height]
        ring

/-- C6: the source's `estimate_hash_rate` equals the spec formula
`d * 2^48 / 0xffff / t`, vanishes at difficulty 0, scales linearly in the
difficulty and inversely in the observed seconds (floats modelled as exact
rationals). -/
theorem C6_hash_rate_properties (d t k : Rat) (ht : 0 < t) (hk : 0 < k) :
    estimate_hash_rate d t = spec_hash_rate d t ∧
      estimate_hash_rate 0 t = 0 ∧
      estimate_hash_rate (k * d) t = k * estimate_hash_rate d t ∧
      estimate_hash_rate d (k * t) = estimate_hash_rate d t / k := by
  have hc : ((1 <<< 48 : Nat) : Rat) = 2 ^ 48 := by
    norm_num [Nat.shiftLeft_eq]
  unfold estimate_hash_rate spec_hash_rate
  simp only [hc]
  refine ⟨by trivial, by ring, by ring, ?_⟩
  rw [div_div, div_div, div_div, mul_comm k t]

/-- Witness for C6 at `d = 3`, `t = 2`, `k = 5`. -/
theorem C6_witness :
    (0 : Rat) < 2 ∧ (0 : Rat) < 5 ∧
      (estimate_hash_rate 3 2 = spec_hash_rate 3 2 ∧
        estimate_hash_rate 0 2 = 0 ∧
        estimate_hash_rate (5 * 3) 2 = 5 * estimate_hash_rate 3 2 ∧
        estimate_hash_rate 3 (5 * 2) = estimate_hash_rate 3 2 / 5) :=
  ⟨by norm_num, by norm_num, C6_hash_rate_properties 3 2 5 (by norm_num) (by norm_num)⟩

/-- C7: with reward scanning disabled, `block_reward` always raises
`TypeError` — `block(['height'])` calls the block dict instead of indexing
it — so the `50 * 0.5**epoch` subsidy is never produced, and since `main`
calls `block_reward` on every consumed block, any run without reward
scanning fails on its first consumed block. -/
theorem C7_type_error :
    (∀ b : Block, block_reward b false = Except.error PyErr.typeError) ∧
      ∀ (b : Block) (rest : List Block),
        run_main false (b :: rest) = Except.error PyErr.typeError := by
  constructor
  · intro b
    rfl
  · intro b rest
    rfl

/-- C9: with reward scanning enabled, `block_reward` fails (the
`assert False` contract violation) if and only if no transaction of the
block is a coinbase transaction, and when the block has exactly one
coinbase transaction it returns the sum of that transaction's output
values. -/
theorem C9_coinbase_reward (b : Block) :
    (block_reward b true = Except.error PyErr.assertionError ↔
      ∀ t ∈ b.tx, tx_is_coinbase t = false) ∧
      ∀ t : Tx, t ∈ b.tx → tx_is_coinbase t = true →
        (∀ u ∈ b.tx, tx_is_coinbase u = true → u = t) →
        block_reward b true = Except.ok ((t.vout.map (fun o => o.value)).sum) := by
  constructor
  · cases hfind : b.tx.find? tx_is_coinbase with
    | none =>
        simp only [block_reward, Bool.not_true, Bool.false_eq_true, if_false, hfind]
        rw [List.find?_eq_none] at hfind
        simp only [Bool.not_eq_true] at hfind
        simpa using hfind
    | some u =>
        simp only [block_reward, Bool.not_true, Bool.false_eq_true, if_false, hfind]
        constructor
        · intro h
          exact absurd h (by simp)
        · intro h
          have := h u (List.mem_of_find?_eq_some hfind)
          rw [List.find?_some hfind] at this
          exact absurd this (by simp)
  · intro t ht hcb huniq
    have hex : (b.tx.find? tx_is_coinbase).isSome := List.find?_isSome.mpr ⟨t, ht, hcb⟩
    obtain ⟨u, hu⟩ := Option.isSome_iff_exists.mp hex
    have hut : u = t := huniq u (List.mem_of_find?_eq_some hu) (List.find?_some hu)
    subst hut
    simp [block_reward, hu]

/-- Witness for C9: a block whose single transaction is a coinbase
transaction with outputs 20 and 30 yields reward 50. -/
theorem C9_witness :
    block_reward ⟨2016, 0, 1, [⟨[⟨true⟩], [⟨20⟩, ⟨30⟩]⟩]⟩ true = Except.ok 50 := by
  have h := (C9_coinbase_reward ⟨2016, 0, 1, [⟨[⟨true⟩], [⟨20⟩, ⟨30⟩]⟩]⟩).2
    ⟨[⟨true⟩], [⟨20⟩, ⟨30⟩]⟩ (by simp) (by decide)
    (by intro u hu _; simpa using hu)
  rw [h]
  norm_num

lemma except_bind_ok {ε α β : Type} (x : Except ε α) (f : α → Except ε β) (y : β)
    (h : x >>= f = Except.ok y) : ∃ a, x = Except.ok a ∧ f a = Except.ok y := by
  cases x with
  | error e => simp [Bind.bind, Except.bind] at h
  | ok a => exact ⟨a, rfl, by simpa [Bind.bind, Except.bind] using h⟩

lemma main_step_ok_inv (scan_coinbase : Bool) (s : MainState) (b : Block)
    (s' : MainState) (h : main_step scan_coinbase s b = Except.ok s') :
    s'.times = (s.times.insert b.time).2 ∧
      ∃ rec : JRec, s'.info = s.info ++ [rec] ∧
        rec.map Prod.fst = ["height", "time", "difficulty", "interval", "reward", "hashrate"] := by
  simp only [main_step] at h
  rcases hins : s.times.insert b.time with ⟨full, times'⟩
  rw [hins] at h
  simp only [] at h
  cases full with
  | false =>
      rw [if_neg (by simp)] at h
      obtain ⟨pair, hpair, h⟩ := except_bind_ok _ _ _ h
      obtain ⟨reward, hrw, h⟩ := except_bind_ok _ _ _ h
      simp only [Except.ok.injEq] at h
      subst h
      exact ⟨rfl, _, rfl, rfl⟩
  | true =>
      rw [if_pos rfl] at h
      cases htail : times'.tail with
      | none =>
          rw [htail] at h
          obtain ⟨pair, hpair, _⟩ := except_bind_ok _ _ _ h
          exact absurd hpair (by simp)
      | some t0 =>
          rw [htail] at h
          obtain ⟨pair, hpair, h⟩ := except_bind_ok _ _ _ h
          obtain ⟨reward, hrw, h⟩ := except_bind_ok _ _ _ h
          simp only [Except.ok.injEq] at h
          subst h
          exact ⟨rfl, _, rfl, rfl⟩

lemma foldl_main_keys (scan_coinbase : Bool) (xs : List Block) :
    ∀ (s final : MainState),
      xs.foldlM (main_step scan_coinbase) s = Except.ok final →
      ∀ r ∈ final.info, r ∈ s.info ∨
        r.map Prod.fst = ["height", "time", "difficulty", "interval", "reward", "hashrate"] := by
  induction xs with
  | nil =>
      intro s final h r hr
      rw [List.foldlM_nil] at h
      simp only [pure, Except.pure, Except.ok.injEq] at h
      subst h
      exact Or.inl hr
  | cons b bs ih =>
      intro s final h r hr
      rw [List.foldlM_cons] at h
      obtain ⟨s₁, hstep, hrest⟩ := except_bind_ok _ _ _ h
      obtain ⟨_, rec, hinfo, hkeys⟩ := main_step_ok_inv scan_coinbase s b s₁ hstep
      rcases ih s₁ final hrest r hr with hmem | hk
      · rw [hinfo] at hmem
        rcases List.mem_append.mp hmem with h1 | h2
        · exact Or.inl h1
        · right
          rw [List.mem_singleton.mp h2]
          exact hkeys
      · exact Or.inr hk

/-- C8 counterexample: a concrete run (reward scanning on, one block with a
coinbase transaction of value 50) emits an element whose keys are exactly
`height`, `time`, `difficulty`, `interval`, `reward`, `hashrate` — there is
no `start` key, and `time` and `difficulty` appear — refuting the claimed
key set `height`/`start`/`hashrate`/`interval`/optional `reward`. -/
theorem C8_counterexample :
    run_main true [⟨0, 0, 1, [⟨[⟨true⟩], [⟨50⟩]⟩]⟩] =
      Except.ok [[("height", JVal.int 0), ("time", JVal.int 0),
        ("difficulty", JVal.rat 1), ("interval", JVal.null),
        ("reward", JVal.rat 50), ("hashrate", JVal.null)]] ∧
      ([[("height", JVal.int 0), ("time", JVal.int 0),
        ("difficulty", JVal.rat 1), ("interval", JVal.null),
        ("reward", JVal.rat 50), ("hashrate", JVal.null)]].map
          (fun r => r.map Prod.fst) =
        [["height", "time", "difficulty", "interval", "reward", "hashrate"]]) ∧
      ¬ "start" ∈ (["height", "time", "difficulty", "interval", "reward", "hashrate"] :
        List String) := by
  refine ⟨?_, by decide, by decide⟩
  norm_num [run_main, main_step, List.foldlM_cons, List.foldlM_nil, CircularBuffer.insert,
    CircularBuffer.tail, block_reward, tx_is_coinbase, optJ, Bind.bind, Except.bind,
    pure, Except.pure]

/-- C8 as amended: every element the loop emits has keys exactly
`height`, `time`, `difficulty`, `interval`, `reward`, `hashrate` (in that
insertion order, `reward` always present), and the serialized output is the
JSON array followed by a trailing newline. -/
theorem C8_record_keys (scan_coinbase : Bool) (blocks : List Block) (recs : List JRec)
    (h : run_main scan_coinbase blocks = Except.ok recs) :
    (∀ r ∈ recs,
        r.map Prod.fst = ["height", "time", "difficulty", "interval", "reward", "hashrate"]) ∧
      main_output scan_coinbase blocks = Except.ok (encode_info recs ++ "\n") ∧
      (encode_info recs ++ "\n").data.getLast? = some '\n' := by
  refine ⟨?_, ?_, ?_⟩
  · unfold run_main at h
    obtain ⟨final, hfold, hfin⟩ := except_bind_ok _ _ _ h
    have hfin' : final.info = recs := by
      simpa using hfin
    intro r hr
    rw [← hfin'] at hr
    rcases foldl_main_keys scan_coinbase blocks ⟨⟨2016, 0, []⟩, []⟩ final hfold r hr with
      hmem | hk
    · exact absurd hmem (by simp)
    · exact hk
  · unfold main_output
    rw [h]
    rfl
  · rw [String.data_append]
    exact List.getLast?_concat _

/-- Witness for C8's amended theorem at a concrete one-block run. -/
theorem C8_witness :
    run_main true [⟨7, 3, 1, [⟨[⟨true⟩], [⟨25⟩]⟩]⟩] =
      Except.ok [[("height", JVal.int 7), ("time", JVal.int 3),
        ("difficulty", JVal.rat 1), ("interval", JVal.null),
        ("reward", JVal.rat 25), ("hashrate", JVal.null)]] ∧
      ((∀ r ∈ [[("height", JVal.int 7), ("time", JVal.int 3),
          ("difficulty", JVal.rat 1), ("interval", JVal.null),
          ("reward", JVal.rat 25), ("hashrate", JVal.null)]],
          r.map Prod.fst = ["height", "time", "difficulty", "interval", "reward", "hashrate"]) ∧
        main_output true [⟨7, 3, 1, [⟨[⟨true⟩], [⟨25⟩]⟩]⟩] =
          Except.ok (encode_info [[("height", JVal.int 7), ("time", JVal.int 3),
            ("difficulty", JVal.rat 1), ("interval", JVal.null),
            ("reward", JVal.rat 25), ("hashrate", JVal.null)]] ++ "\n") ∧
        (encode_info [[("height", JVal.int 7), ("time", JVal.int 3),
          ("difficulty", JVal.rat 1), ("interval", JVal.null),
          ("reward", JVal.rat 25), ("hashrate", JVal.null)]] ++ "\n").data.getLast? =
          some '\n') :=
  ⟨by norm_num [run_main, main_step, List.foldlM_cons, List.foldlM_nil,
      CircularBuffer.insert, CircularBuffer.tail, block_reward, tx_is_coinbase, optJ,
      Bind.bind, Except.bind, pure, Except.pure],
    C8_record_keys true [⟨7, 3, 1, [⟨[⟨true⟩], [⟨25⟩]⟩]⟩]
      [[("height", JVal.int 7), ("time", JVal.int 3),
        ("difficulty", JVal.rat 1), ("interval", JVal.null),
        ("reward", JVal.rat 25), ("hashrate", JVal.null)]]
      (by norm_num [run_main, main_step, List.foldlM_cons, List.foldlM_nil,
        CircularBuffer.insert, CircularBuffer.tail, block_reward, tx_is_coinbase, optJ,
        Bind.bind, Except.bind, pure, Except.pure])⟩

lemma bufModel_capacity (c : Nat) (t : Nat → Int) (k : Nat) :
    (bufModel c t k).capacity = c := by
  unfold bufModel
  split <;> rfl

lemma insert_full {α : Type} (c p : Nat) (l : List α) (v : α) (hl : l.length = c) :
    (CircularBuffer.mk c p l).insert v = (true, ⟨c, (p + 1) % c, l.set p v⟩) := by
  unfold CircularBuffer.insert
  simp [hl]

lemma insert_not_full {α : Type} (c p : Nat) (l : List α) (v : α) (hl : l.length ≠ c) :
    (CircularBuffer.mk c p l).insert v = (false, ⟨c, p, l ++ [v]⟩) := by
  unfold CircularBuffer.insert
  simp [hl]

lemma set_map_range {α : Type} (c p : Nat) (f : Nat → α) (v : α) :
    ((List.range c).map f).set p v =
      (List.range c).map (fun j => if j = p then v else f j) := by
  apply List.ext_getElem
  · simp
  · intro n h1 h2
    simp only [List.getElem_set, List.getElem_map, List.getElem_range]
    by_cases hn : p = n
    · subst hn
      simp
    · simp [hn, Ne.symm hn]

lemma lastWrite_self (c k : Nat) (hc : 1 ≤ c) (hk : c ≤ k) :
    lastWrite c (k + 1) (k % c) = k := by
  unfold lastWrite
  have hq := Nat.div_add_mod k c
  have e : k + 1 - 1 - k % c = c * (k / c) := by omega
  rw [e, Nat.mul_mod_right]
  omega

lemma lastWrite_append (c n : Nat) (hc : 1 ≤ c) (hn : n < c) (h0 : n ≠ 0) :
    lastWrite c (c + 1) n = n := by
  unfold lastWrite
  have e : c + 1 - 1 - n = c - n := by omega
  rw [e, Nat.mod_eq_of_lt (by omega)]
  omega

lemma lastWrite_untouched (c k n : Nat) (hc : 1 ≤ c) (hk : c ≤ k) (hn : n < c)
    (hne : n ≠ k % c) :
    lastWrite c (k + 1) n = lastWrite c k n := by
  unfold lastWrite
  have hq := Nat.div_add_mod (k - n) c
  have hrlt : (k - n) % c < c := Nat.mod_lt _ (by omega)
  have hrne : (k - n) % c ≠ 0 := by
    intro h0
    have e2 : k = n + c * ((k - n) / c) := by omega
    have e3 : k % c = n := by
      rw [e2, Nat.add_mul_mod_self_left, Nat.mod_eq_of_lt hn]
    exact hne e3.symm
  have e6 : k + 1 - 1 - n = k - n := by omega
  have e4 : k - 1 - n = c * ((k - n) / c) + ((k - n) % c - 1) := by omega
  have e5 : (k - 1 - n) % c = (k - n) % c - 1 := by
    rw [e4, Nat.mul_add_mod, Nat.mod_eq_of_lt (by omega)]
  rw [e6, e5]
  omega

lemma lastWrite_tail (c k : Nat) (hc : 1 ≤ c) (hk : c < k) :
    lastWrite c k (k % c) = k - c := by
  unfold lastWrite
  have hq := Nat.div_add_mod k c
  have hdiv : 1 ≤ k / c := Nat.div_pos (by omega) (by omega)
  have e3 : c * (k / c) = c * (k / c - 1) + c := by
    conv_lhs => rw [show k / c = (k / c - 1) + 1 from by omega]
    ring
  have e : k - 1 - k % c = c * (k / c - 1) + (c - 1) := by omega
  rw [e, Nat.mul_add_mod, Nat.mod_eq_of_lt (by omega)]
  omega

lemma bufModel_insert (c : Nat) (hc : 1 ≤ c) (t : Nat → Int) (k : Nat) :
    (bufModel c t k).insert (t k) = (decide (c ≤ k), bufModel c t (k + 1)) := by
  rcases Nat.lt_trichotomy k c with hk | hk | hk
  · have hbk : bufModel c t k = ⟨c, 0, (List.range k).map t⟩ := by
      unfold bufModel
      rw [if_pos (by omega)]
    have hbk1 : bufModel c t (k + 1) = ⟨c, 0, (List.range (k + 1)).map t⟩ := by
      unfold bufModel
      rw [if_pos (by omega)]
    rw [hbk, insert_not_full c 0 _ (t k) (by simp; omega), hbk1]
    simp [decide_eq_false (by omega : ¬ c ≤ k), List.range_succ]
  · rw [hk]
    have hbk : bufModel c t c = ⟨c, 0, (List.range c).map t⟩ := by
      unfold bufModel
      rw [if_pos (le_refl c)]
    have hbk1 : bufModel c t (c + 1) =
        ⟨c, (c + 1) % c, (List.range c).map (fun j => t (lastWrite c (c + 1) j))⟩ := by
      unfold bufModel
      rw [if_neg (by omega)]
    rw [hbk, insert_full c 0 _ (t c) (by simp), hbk1, set_map_range]
    have hpos : (0 + 1) % c = (c + 1) % c := by
      simp [Nat.add_mod_left]
    have hitems : (List.range c).map (fun j => if j = 0 then t c else t j) =
        (List.range c).map (fun j => t (lastWrite c (c + 1) j)) := by
      apply List.ext_getElem (by simp)
      intro n h1 h2
      simp only [List.getElem_map, List.getElem_range]
      by_cases hn : n = 0
      · subst hn
        rw [if_pos rfl]
        have h0 := lastWrite_self c c hc (le_refl c)
        rw [Nat.mod_self] at h0
        rw [h0]
      · rw [if_neg hn]
        have hnc : n < c := by simpa using h1
        rw [lastWrite_append c n hc hnc hn]
    rw [hpos, hitems]
    simp
  · have hbk : bufModel c t k =
        ⟨c, k % c, (List.range c).map (fun j => t (lastWrite c k j))⟩ := by
      unfold bufModel
      rw [if_neg (by omega)]
    have hbk1 : bufModel c t (k + 1) =
        ⟨c, (k + 1) % c, (List.range c).map (fun j => t (lastWrite c (k + 1) j))⟩ := by
      unfold bufModel
      rw [if_neg (by omega)]
    rw [hbk, insert_full c (k % c) _ (t k) (by simp), hbk1, set_map_range]
    have hpos : (k % c + 1) % c = (k + 1) % c := Nat.mod_add_mod k c 1
    have hitems : (List.range c).map
          (fun j => if j = k % c then t k else t (lastWrite c k j)) =
        (List.range c).map (fun j => t (lastWrite c (k + 1) j)) := by
      apply List.ext_getElem (by simp)
      intro n h1 h2
      simp only [List.getElem_map, List.getElem_range]
      by_cases hn : n = k % c
      · subst hn
        rw [if_pos rfl, lastWrite_self c k hc (by omega)]
      · rw [if_neg hn]
        have hnc : n < c := by simpa using h1
        rw [lastWrite_untouched c k n hc (by omega) hnc hn]
    rw [hpos, hitems]
    simp
    omega

lemma bufModel_tail (c : Nat) (hc : 1 ≤ c) (t : Nat → Int) (k : Nat) (hk : c < k) :
    (bufModel c t k).tail = some (t (k - c)) := by
  unfold bufModel CircularBuffer.tail
  rw [if_neg (by omega)]
  simp only [List.getElem?_map,
    List.getElem?_range (show k % c < c from Nat.mod_lt k (by omega)), Option.map_some]
  rw [show Option.map (fun j => t (lastWrite c k j)) (some (k % c)) =
      some (t (lastWrite c k (k % c))) from rfl,
    lastWrite_tail c k hc hk]

lemma main_step_model (blocks : List Block) (k : Nat) (acc : List JRec)
    (hrw : (block_reward (blocks.getD k default) true).isOk = true) :
    main_step true ⟨bufModel 2016 (fun j => (blocks.getD j default).time) k, acc⟩
        (blocks.getD k default) =
      Except.ok ⟨bufModel 2016 (fun j => (blocks.getD j default).time) (k + 1),
        acc ++ [expectedRec blocks k]⟩ := by
  have hins : (bufModel 2016 (fun j => (blocks.getD j default).time) k).insert
        (blocks.getD k default).time =
      (decide (2016 ≤ k), bufModel 2016 (fun j => (blocks.getD j default).time) (k + 1)) :=
    bufModel_insert 2016 (by norm_num) (fun j => (blocks.getD j default).time) k
  obtain ⟨r, hr⟩ : ∃ r, block_reward (blocks.getD k default) true = Except.ok r := by
    cases hbr : block_reward (blocks.getD k default) true with
    | error e => rw [hbr] at hrw; simp [Except.isOk, Except.toBool] at hrw
    | ok r => exact ⟨r, rfl⟩
  simp only [main_step, hins]
  by_cases hk16 : 2016 ≤ k
  · rw [if_pos (by simpa using hk16)]
    rw [bufModel_tail 2016 (by norm_num) (fun j => (blocks.getD j default).time) (k + 1)
      (by omega)]
    rw [hr]
    simp only [Bind.bind, Except.bind, Except.ok.injEq]
    have hcap : (bufModel 2016 (fun j => (blocks.getD j default).time) (k + 1)).capacity
        = 2016 := bufModel_capacity _ _ _
    rw [hcap]
    simp only [MainState.mk.injEq, true_and]
    congr 1
    simp only [expectedRec, expInterval, optJ, if_neg (by omega : ¬ k < 2016), hr]
    norm_num
    rfl
  · rw [if_neg (by simpa using hk16)]
    rw [hr]
    simp only [Bind.bind, Except.bind, Except.ok.injEq]
    simp only [MainState.mk.injEq, true_and]
    congr 1
    simp only [expectedRec, optJ, if_pos (by omega : k < 2016), hr]
    norm_num
    rfl

lemma run_main_from (blocks : List Block)
    (hrw : ∀ b ∈ blocks, (block_reward b true).isOk = true) :
    ∀ (xs : List Block) (k : Nat) (acc : List JRec), blocks.drop k = xs →
      xs.foldlM (main_step true)
          (⟨bufModel 2016 (fun j => (blocks.getD j default).time) k, acc⟩ : MainState) =
        Except.ok ⟨bufModel 2016 (fun j => (blocks.getD j default).time) (k + xs.length),
          acc ++ (List.range' k xs.length).map (expectedRec blocks)⟩ := by
  intro xs
  induction xs with
  | nil =>
      intro k acc hdrop
      simp [List.foldlM_nil, pure, Except.pure]
  | cons b xs ih =>
      intro k acc hdrop
      have hb? : blocks[k]? = some b := by
        have h := List.getElem?_drop blocks k 0
        rw [hdrop] at h
        simpa using h.symm
      have hbD : blocks.getD k default = b := by
        rw [List.getD_eq_getElem?_getD, hb?]
        rfl
      have hmem : b ∈ blocks := List.getElem?_mem hb?
      have hdrop' : blocks.drop (k + 1) = xs := by
        have h := List.drop_drop 1 k blocks
        rw [hdrop] at h
        simpa using h.symm
      rw [List.foldlM_cons, ← hbD,
        main_step_model blocks k acc (by rw [hbD]; exact hrw b hmem)]
      simp only [Bind.bind, Except.bind]
      rw [ih (k + 1) (acc ++ [expectedRec blocks k]) hdrop']
      have e2 : acc ++ [expectedRec blocks k] ++
          (List.range' (k + 1) xs.length).map (expectedRec blocks) =
          acc ++ (List.range' k (xs.length + 1)).map (expectedRec blocks) := by
        rw [List.range'_succ, List.map_cons, List.append_assoc]
        rfl
      rw [e2]
      simp only [List.length_cons]
      rw [show k + 1 + xs.length = k + (xs.length + 1) from by omega]

lemma lookup_interval (h ti d iv r hr : JVal) :
    (([("height", h), ("time", ti), ("difficulty", d), ("interval", iv),
      ("reward", r), ("hashrate", hr)]) : JRec).lookup "interval" = some iv := by
  rfl

/-- C3 as amended: the analyzer emits one record per consumed block — not
one per difficulty boundary — and the record's `interval` field is null for
the first 2016 blocks and non-null for EVERY block from index 2016 onward
(a rolling 2016-entry window, regardless of heights), with value
`(t_i - t_(i-2015)) / 2016` where `t_j` is the time of the `j`-th consumed
block. -/
theorem C3_per_block_records (blocks : List Block)
    (hrw : ∀ b ∈ blocks, (block_reward b true).isOk = true) :
    ∃ recs, run_main true blocks = Except.ok recs ∧
      recs.length = blocks.length ∧
      ∀ i, i < blocks.length →
        (recs.getD i []).lookup "interval" =
          some (if i < 2016 then JVal.null else JVal.rat (expInterval blocks i)) := by
  refine ⟨(List.range blocks.length).map (expectedRec blocks), ?_, by simp, ?_⟩
  · unfold run_main
    have h0 : (⟨⟨2016, 0, []⟩, []⟩ : MainState) =
        ⟨bufModel 2016 (fun j => (blocks.getD j default).time) 0, []⟩ := by
      unfold bufModel
      rw [if_pos (by omega)]
      simp
    rw [h0, run_main_from blocks hrw blocks 0 [] (by simp)]
    simp only [Bind.bind, Except.bind, List.nil_append, Except.ok.injEq]
    rw [List.range_eq_range']
  · intro i hi
    have hgd : ((List.range blocks.length).map (expectedRec blocks)).getD i [] =
        expectedRec blocks i := by
      rw [List.getD_eq_getElem?_getD, List.getElem?_map, List.getElem?_range hi]
      rfl
    rw [hgd]
    exact lookup_interval _ _ _ _ _ _

/-- Witness for C3's amended theorem at a concrete two-block run. -/
theorem C3_witness :
    (∀ b ∈ ([⟨0, 0, 1, [⟨[⟨true⟩], [⟨50⟩]⟩]⟩,
        ⟨1, 600, 1, [⟨[⟨true⟩], [⟨50⟩]⟩]⟩] : List Block),
      (block_reward b true).isOk = true) ∧
      (∃ recs, run_main true [⟨0, 0, 1, [⟨[⟨true⟩], [⟨50⟩]⟩]⟩,
            ⟨1, 600, 1, [⟨[⟨true⟩], [⟨50⟩]⟩]⟩] = Except.ok recs ∧
        recs.length = ([⟨0, 0, 1, [⟨[⟨true⟩], [⟨50⟩]⟩]⟩,
          ⟨1, 600, 1, [⟨[⟨true⟩], [⟨50⟩]⟩]⟩] : List Block).length ∧
        ∀ i, i < ([⟨0, 0, 1, [⟨[⟨true⟩], [⟨50⟩]⟩]⟩,
            ⟨1, 600, 1, [⟨[⟨true⟩], [⟨50⟩]⟩]⟩] : List Block).length →
          (recs.getD i []).lookup "interval" =
            some (if i < 2016 then JVal.null
              else JVal.rat (expInterval [⟨0, 0, 1, [⟨[⟨true⟩], [⟨50⟩]⟩]⟩,
                ⟨1, 600, 1, [⟨[⟨true⟩], [⟨50⟩]⟩]⟩] i))) :=
  ⟨by decide,
    C3_per_block_records [⟨0, 0, 1, [⟨[⟨true⟩], [⟨50⟩]⟩]⟩,
      ⟨1, 600, 1, [⟨[⟨true⟩], [⟨50⟩]⟩]⟩] (by decide)⟩

/-- C3 counterexample: consuming two blocks at heights 0 and 1 — neither a
positive multiple of 2016 — emits TWO records, one per block, refuting
"a summary is produced for a block if and only if its height is a positive
multiple of 2016; one summary per boundary crossed, not one record per
block". -/
theorem C3_counterexample :
    run_main true [⟨0, 0, 1, [⟨[⟨true⟩], [⟨50⟩]⟩]⟩,
        ⟨1, 600, 1, [⟨[⟨true⟩], [⟨50⟩]⟩]⟩] =
      Except.ok [[("height", JVal.int 0), ("time", JVal.int 0),
          ("difficulty", JVal.rat 1), ("interval", JVal.null),
          ("reward", JVal.rat 50), ("hashrate", JVal.null)],
        [("height", JVal.int 1), ("time", JVal.int 600),
          ("difficulty", JVal.rat 1), ("interval", JVal.null),
          ("reward", JVal.rat 50), ("hashrate", JVal.null)]] ∧
      (1 : Nat) % 2016 ≠ 0 := by
  constructor
  · norm_num [run_main, main_step, List.foldlM_cons, List.foldlM_nil, CircularBuffer.insert,
      CircularBuffer.tail, block_reward, tx_is_coinbase, optJ, Bind.bind, Except.bind,
      pure, Except.pure]
  · decide
